import Mathlib

/-!
Verification of the DerivBot repository against its specification.

The development shallowly embeds the signal pipeline of `src/deriv_bot.py`
(indicators, supply/demand zones, per-timeframe classification,
multi-timeframe confirmation, the alert cooldown gate, MarkdownV2 escaping)
together with the deduplication step of `src/sniper_bot.py`.

Modelling conventions:
* Python floats are modelled by exact rationals (`ℚ`).
* A pandas Series that may contain NaN entries is modelled by
  `List (Option ℚ)`; a NaN entry is `none`.  Operations mirror pandas
  semantics: `diff` puts NaN in front, `rolling(w).mean()` is NaN for the
  first `w - 1` positions, `where` turns NaN into the fill value because
  `NaN > 0` is false, `fillna` replaces `none`, and the sample standard
  deviation skips NaN entries and uses `ddof = 1`.
* `volatility_pct` in the source is `pct_change().std() * 100` and is only
  ever used in comparisons with nonnegative thresholds, so it is embedded
  square-free: `volatility_pct_sq` computes `(std * 100)^2` exactly, and the
  comparison `vol > MIN_VOLATILITY_PCT` becomes
  `volatility_pct_sq > MIN_VOLATILITY_PCT^2`, which is equivalent because
  the square root is monotone on nonnegative reals.  A NaN standard
  deviation (fewer than two valid observations) is `none`, and any
  comparison against it is false, as in Python.
* `multi_tf_confirmation` receives the dictionary built by `symbol_worker`,
  which always holds exactly the five timeframes `1m, 3m, 5m, 10m, 15m` in
  this insertion order; the embedding fixes those five slots.  A failed
  fetch is an empty frame, exactly as in `symbol_worker`.
* A Python `TypeError` (arithmetic or comparison on `None`) is modelled by
  `Except.error`; normal returns are `Except.ok`.
* Wall-clock time for the cooldown gate is a rational number of minutes;
  the outcome of the Telegram send is an explicit boolean input.
-/

set_option allowUnsafeReducibility true in
attribute [semireducible] Rat.add Rat.sub Rat.mul Rat.div Rat.inv Rat.neg Rat.blt

set_option maxRecDepth 100000

/-- One OHLC candle (`open/high/low/close` columns of the fetched frame). -/
structure Bar where
  open_ : ℚ
  high : ℚ
  low : ℚ
  close : ℚ
  deriving DecidableEq, Repr

/-- A fetched candle frame: the rows of the pandas DataFrame, in time order. -/
abbrev DF := List Bar

/-- Signal direction, the strings "LONG" / "SHORT" in the source. -/
inductive Dir where
  | long
  | short
  deriving DecidableEq, Repr

/-- The dict returned by `multi_tf_confirmation` on success. -/
structure Signal where
  direction : Dir
  tfs : List String
  price : ℚ
  tp : ℚ
  sl : ℚ
  note : String
  deriving DecidableEq, Repr

/-- The five frames fetched by `symbol_worker`, keyed `1m,3m,5m,10m,15m`. -/
structure CandlesByTF where
  tf1m : DF
  tf3m : DF
  tf5m : DF
  tf10m : DF
  tf15m : DF

/-- `MIN_VOLATILITY_PCT = 0.15` from the configuration block. -/
def MIN_VOLATILITY_PCT : ℚ := 15 / 100

/-- `SUPPLY_LOOKBACK_15M = 50`. -/
def SUPPLY_LOOKBACK_15M : ℕ := 50

/-- `SUPPLY_LOOKBACK_5M = 40`. -/
def SUPPLY_LOOKBACK_5M : ℕ := 40

/-- `ALERT_COOLDOWN_MINUTES = 30`, as a rational number of minutes. -/
def ALERT_COOLDOWN_MINUTES : ℚ := 30

/-- Recursion core of `ema`: `y_i = (1 - alpha) * y_(i-1) + alpha * x_i`. -/
def emaGo (alpha : ℚ) (prev : ℚ) : List ℚ → List ℚ
  | [] => []
  | x :: xs =>
    let y := (1 - alpha) * prev + alpha * x
    y :: emaGo alpha y xs

/-- `ema(series, period) = series.ewm(span=period, adjust=False).mean()`:
seeded from the first value, smoothing factor `2 / (period + 1)`. -/
def ema (series : List ℚ) (period : ℕ) : List ℚ :=
  match series with
  | [] => []
  | x :: xs => x :: emaGo (2 / ((period : ℚ) + 1)) x xs

/-- `series.diff()`: NaN in the first slot, then successive differences. -/
def diffSeries (s : List ℚ) : List (Option ℚ) :=
  match s with
  | [] => []
  | _ :: _ => none :: List.zipWith (fun a b => some (b - a)) s s.tail

/-- `series.rolling(window=w).mean()`: NaN until a full window is available,
then the arithmetic mean of the last `w` values. -/
def rollingMean (w : ℕ) (s : List ℚ) : List (Option ℚ) :=
  (List.range s.length).map fun i =>
    if i + 1 < w then none
    else some ((((s.drop (i + 1 - w)).take w).sum) / (w : ℚ))

/-- `rsi(series, period)` from `deriv_bot.py`:
gains and losses are rolling means of the clipped deltas, the zero loss
average is replaced by NaN before dividing, and `rs` is then `fillna(0)`,
so the final column is everywhere defined. -/
def rsi (series : List ℚ) (period : ℕ) : List ℚ :=
  let delta := diffSeries series
  let gain := delta.map fun d =>
    match d with
    | some x => if 0 < x then x else 0
    | none => 0
  let loss := delta.map fun d =>
    match d with
    | some x => if x < 0 then -x else 0
    | none => 0
  let gainAvg := rollingMean period gain
  let lossAvg := rollingMean period loss
  let rs := List.zipWith (fun g l =>
    match g, l with
    | some gv, some lv => if lv = 0 then none else some (gv / lv)
    | _, _ => none) gainAvg lossAvg
  let rsFilled := rs.map fun r => r.getD 0
  rsFilled.map fun r => 100 - 100 / (1 + r)

/-- `series.pct_change()`: NaN first, then `s_i / s_(i-1) - 1`.
(The Python value at a zero previous price is a float infinity; in this
rational model it is `0`.  No claim touches a zero price.) -/
def pct_change (s : List ℚ) : List (Option ℚ) :=
  match s with
  | [] => []
  | _ :: _ => none :: List.zipWith (fun a b => some ((b - a) / a)) s s.tail

/-- Sample variance with `ddof = 1` over the valid observations,
NaN (`none`) when fewer than two observations exist, as in pandas `std`. -/
def sampleVar (v : List ℚ) : Option ℚ :=
  if v.length < 2 then none
  else
    let n : ℚ := v.length
    let m := v.sum / n
    some (((v.map fun x => (x - m) ^ 2).sum) / (n - 1))

/-- Square of `volatility_pct(series) = series.pct_change().std() * 100`,
skipping NaN entries as pandas `std` does; `none` models a NaN result. -/
def volatility_pct_sq (series : List ℚ) : Option ℚ :=
  (sampleVar ((pct_change series).filterMap id)).map fun v => v * 10000

/-- `.iloc[-1]` on a column known to be nonempty at every use site. -/
def ilocLast (xs : List ℚ) : ℚ :=
  xs.getLast?.getD 0

/-- Largest element of a list of rationals, `none` on the empty list
(`Series.max()` of a nonempty column). -/
def maxList : List ℚ → Option ℚ
  | [] => none
  | x :: xs =>
    match maxList xs with
    | none => some x
    | some m => some (max x m)

/-- Smallest element of a list of rationals, `none` on the empty list. -/
def minList : List ℚ → Option ℚ
  | [] => none
  | x :: xs =>
    match minList xs with
    | none => some x
    | some m => some (min x m)

/-- `supply_demand_zones_from_df(df, lookback)`:
`(None, None)` on an empty frame; with fewer rows than the lookback the
extremes of all rows; otherwise the extremes over the last `lookback` rows
(`rolling(lookback).max().iloc[-1]` and `rolling(lookback).min().iloc[-1]`). -/
def supply_demand_zones_from_df (df : DF) (lookback : ℕ) : Option ℚ × Option ℚ :=
  if df = [] then (none, none)
  else if df.length < lookback then
    (maxList (df.map Bar.high), minList (df.map Bar.low))
  else
    (maxList ((df.map Bar.high).drop (df.length - lookback)),
     minList ((df.map Bar.low).drop (df.length - lookback)))

/-- `single_tf_signal(df, tf_name)`: vote of one timeframe.
The volatility comparison is transported through squares (see the header). -/
def single_tf_signal (df : DF) : Option Dir :=
  if df.length < 20 then none
  else
    let closes := df.map Bar.close
    let ema_fast := ilocLast (ema closes 9)
    let ema_slow := ilocLast (ema closes 21)
    let rsi_val := ilocLast (rsi closes 14)
    let volOk :=
      match volatility_pct_sq closes with
      | some v => decide (MIN_VOLATILITY_PCT ^ 2 < v)
      | none => false
    if ema_slow < ema_fast ∧ (40 : ℚ) < rsi_val ∧ rsi_val < 70 ∧ volOk = true then
      some Dir.long
    else if ema_fast < ema_slow ∧ (30 : ℚ) < rsi_val ∧ rsi_val < 60 ∧ volOk = true then
      some Dir.short
    else none

/-- The `(tf_name, df)` items of `candles_by_tf`, in the insertion order
used by `symbol_worker`. -/
def tfFrames (c : CandlesByTF) : List (String × DF) :=
  [("1m", c.tf1m), ("3m", c.tf3m), ("5m", c.tf5m), ("10m", c.tf10m), ("15m", c.tf15m)]

/-- The five per-timeframe votes, in frame order. -/
def votesOf (c : CandlesByTF) : List (Option Dir) :=
  (tfFrames c).map fun p => single_tf_signal p.2

/-- Number of timeframes voting for direction `d`. -/
def countVotes (c : CandlesByTF) (d : Dir) : ℕ :=
  (votesOf c).count (some d)

/-- `tf_signals.setdefault(s, []).append(tf_name)`: append the label to the
entry of `d`, creating the entry at the back on first occurrence. -/
def addVote : List (Dir × List String) → Dir → String → List (Dir × List String)
  | [], d, tf => [(d, [tf])]
  | (d0, l) :: rest, d, tf =>
    if d0 = d then (d0, l ++ [tf]) :: rest
    else (d0, l) :: addVote rest d tf

/-- Build the `tf_signals` dict from labelled votes, skipping abstentions. -/
def tallyVotes (vs : List (String × Option Dir)) : List (Dir × List String) :=
  vs.foldl (fun acc p =>
    match p.2 with
    | some d => addVote acc d p.1
    | none => acc) []

/-- The `tf_signals` dict of `multi_tf_confirmation`. -/
def tfSignals (c : CandlesByTF) : List (Dir × List String) :=
  tallyVotes ((tfFrames c).map fun p => (p.1, single_tf_signal p.2))

/-- Lookup of a direction's label list in the tally (dict access). -/
def tallyLookup : List (Dir × List String) → Dir → Option (List String)
  | [], _ => none
  | (d0, l) :: rest, d => if d0 = d then some l else tallyLookup rest d

/-- Last close of a frame, `none` when the frame is empty. -/
def lastClose (df : DF) : Option ℚ :=
  (df.map Bar.close).getLast?

/-- Current price: last close of the highest-resolution nonempty frame,
scanning `1m, 3m, 5m, 10m, 15m` as the source loop does. -/
def pickPrice (c : CandlesByTF) : Option ℚ :=
  match lastClose c.tf1m with
  | some p => some p
  | none =>
    match lastClose c.tf3m with
    | some p => some p
    | none =>
      match lastClose c.tf5m with
      | some p => some p
      | none =>
        match lastClose c.tf10m with
        | some p => some p
        | none => lastClose c.tf15m

/-- Python `a or b` on optional floats: `b` when `a` is `None` or `0.0`. -/
def orPy (a b : Option ℚ) : Option ℚ :=
  match a with
  | some x => if x = 0 then b else some x
  | none => b

/-- The combined `(demand_zone, supply_zone)` pair of
`multi_tf_confirmation`, from the 15m and 5m zones. -/
def combinedZones (h15 l15 h5 l5 : Option ℚ) : Option ℚ × Option ℚ :=
  match l15, l5 with
  | some a, some b =>
    (some (min a b),
      match h15, h5 with
      | some x, some y => some (max x y)
      | _, _ => orPy h15 h5)
  | none, some b => (some b, h5)
  | some a, none => (some a, h15)
  | none, none => (none, none)

/-- Combined zones of a candle set: 15m zones with lookback 50 and 5m zones
with lookback 40, merged as in the source. -/
def combined (c : CandlesByTF) : Option ℚ × Option ℚ :=
  let z15 := supply_demand_zones_from_df c.tf15m SUPPLY_LOOKBACK_15M
  let z5 := supply_demand_zones_from_df c.tf5m SUPPLY_LOOKBACK_5M
  combinedZones z15.1 z15.2 z5.1 z5.2

/-- Zone alignment step for one confirmed direction: the body of the
`if len(tf_list) >= 2` branch after the price is known.  `none` means the
branch fell through without returning (the Python loop then continues). -/
def zoneDecision (demand supply : Option ℚ) (d : Dir) (tfs : List String)
    (price : ℚ) : Option Signal :=
  match d with
  | Dir.long =>
    match demand with
    | none =>
      let sl := price - price * (2 / 1000)
      let tp := price + (price - sl) * (3 / 2)
      some ⟨Dir.long, tfs, price, tp, sl, "no-demand-zone"⟩
    | some dz =>
      if price ≤ dz * (1005 / 1000) then
        let sl := dz
        let tp :=
          match supply with
          | some sz => price + (sz - dz) * (1 / 2)
          | none => price + (price - sl) * (3 / 2)
        some ⟨Dir.long, tfs, price, tp, sl, "zone-confirmed"⟩
      else none
  | Dir.short =>
    match supply with
    | none =>
      let sl := price + price * (2 / 1000)
      let tp := price - (sl - price) * (3 / 2)
      some ⟨Dir.short, tfs, price, tp, sl, "no-supply-zone"⟩
    | some sz =>
      if sz * (995 / 1000) ≤ price then
        let sl := sz
        let tp :=
          match demand with
          | some dz => price - (sz - dz) * (1 / 2)
          | none => price - (sl - price) * (3 / 2)
        some ⟨Dir.short, tfs, price, tp, sl, "zone-confirmed"⟩
      else none

/-- One iteration body of the confirmation loop for an entry that reached
the `>= 2` check.  A `None` current price would make the Python code apply
arithmetic or an order comparison to `None`, raising `TypeError`. -/
def confirmStep (c : CandlesByTF) (d : Dir) (tfs : List String) :
    Except String (Option Signal) :=
  match pickPrice c with
  | none => Except.error "TypeError: unsupported operand for NoneType"
  | some price => Except.ok (zoneDecision (combined c).1 (combined c).2 d tfs price)

/-- The `for direction, tf_list in tf_signals.items()` loop: entries with
fewer than two votes are skipped, a returned signal stops the loop, a
fallen-through zone check moves to the next entry, and exhaustion returns
`None`. -/
def confirmLoop (c : CandlesByTF) : List (Dir × List String) → Except String (Option Signal)
  | [] => Except.ok none
  | (d, tfs) :: rest =>
    if 2 ≤ tfs.length then
      match confirmStep c d tfs with
      | Except.error e => Except.error e
      | Except.ok (some s) => Except.ok (some s)
      | Except.ok none => confirmLoop c rest
    else confirmLoop c rest

/-- `multi_tf_confirmation(symbol, candles_by_tf)` over the five frames. -/
def multi_tf_confirmation (c : CandlesByTF) : Except String (Option Signal) :=
  confirmLoop c (tfSignals c)

/-- The `last_alert_time` map: newest entry first, first match wins. -/
abbrev AlertState := List ((String × Dir) × ℚ)

/-- Dictionary lookup in `last_alert_time`. -/
def lookupAlert : AlertState → String × Dir → Option ℚ
  | [], _ => none
  | (k, t) :: rest, key => if k = key then some t else lookupAlert rest key

/-- `can_alert(symbol, direction)` at wall-clock time `now` (in minutes):
true with no recorded alert, otherwise true when at least the cooldown has
elapsed (`>=` in the source). -/
def can_alert (st : AlertState) (symbol : String) (direction : Dir) (now : ℚ) : Bool :=
  match lookupAlert st (symbol, direction) with
  | none => true
  | some last => decide (ALERT_COOLDOWN_MINUTES ≤ now - last)

/-- `set_alert_time(symbol, direction)`: record `now` for the key. -/
def set_alert_time (st : AlertState) (symbol : String) (direction : Dir) (now : ℚ) :
    AlertState :=
  ((symbol, direction), now) :: st

/-- The alert branch of `symbol_worker` for one confirmed signal:
gate on `can_alert`, attempt the send, and record the time only when
`send_telegram` reported success.  Returns (emitted, new state). -/
def alert_step (st : AlertState) (symbol : String) (direction : Dir) (now : ℚ)
    (send_ok : Bool) : Bool × AlertState :=
  if can_alert st symbol direction now then
    if send_ok then (true, set_alert_time st symbol direction now)
    else (false, st)
  else (false, st)

/-- The deduplication step of `sniper_bot.run_bot` for one generated
signal: when the key is new the message send is attempted and the key is
added to `sent_signals` regardless of the send outcome (`send_telegram`
there returns nothing and swallows errors). -/
def sniper_signal_step (sent_signals : List String) (signal_key : String)
    (send_ok : Bool) : List String :=
  if signal_key ∈ sent_signals then sent_signals
  else
    match send_ok with
    | true => signal_key :: sent_signals
    | false => signal_key :: sent_signals

/-- The characters escaped by `escape_md2` (`_*[]()~`, backquote,
`>#+-=|`, braces, `.` and `!`). -/
def md2_special : List Char :=
  ['_', '*', '[', ']', '(', ')', '~', Char.ofNat 96, '>', '#', '+', '-',
   '=', '|', Char.ofNat 123, Char.ofNat 125, '.', '!']

/-- `escape_md2(text)`: the regex substitution prefixes each occurrence of
a special character with one backslash and copies everything else. -/
def escape_md2 : List Char → List Char
  | [] => []
  | ch :: rest =>
    if md2_special.contains ch then '\\' :: ch :: escape_md2 rest
    else ch :: escape_md2 rest

/-- The request body built by `send_telegram`. -/
structure TelegramPayload where
  chat_id : String
  text : List Char
  parse_mode : String
  deriving DecidableEq, Repr

/-- `send_telegram(message)` up to the HTTP call: with missing secrets it
returns `False` without building a request (`none` here); otherwise the
posted payload carries the MarkdownV2-escaped body. -/
def send_telegram (token chat_id : Option String) (message : List Char) :
    Option TelegramPayload :=
  match token, chat_id with
  | some _, some chat => some ⟨chat, escape_md2 message, "MarkdownV2"⟩
  | _, _ => none

/-- Concrete close series: a rising sawtooth (+2, -1 alternating) whose
last fourteen deltas average gain 1 and loss 1/2, so RSI is 200/3. -/
def upCloses : List ℚ :=
  [100, 102, 101, 103, 102, 104, 103, 105, 104, 106, 105,
   107, 106, 108, 107, 109, 108, 110, 109, 111, 110]

/-- Concrete close series: a falling sawtooth (-2, +1 alternating) whose
last fourteen deltas average gain 1/2 and loss 1, so RSI is 100/3. -/
def downCloses : List ℚ :=
  [100, 98, 99, 97, 98, 96, 97, 95, 96, 94, 95,
   93, 94, 92, 93, 91, 92, 90, 91, 89, 90]

/-- Build a frame whose four columns all equal the given close series. -/
def mkFlatBars (vs : List ℚ) : DF := vs.map fun v => ⟨v, v, v, v⟩

/-- A 21-bar frame that votes LONG under `single_tf_signal`. -/
def dfUp : DF := mkFlatBars upCloses

/-- A 21-bar frame that votes SHORT under `single_tf_signal`. -/
def dfDown : DF := mkFlatBars downCloses

/-- Candle set with two LONG voters (5m, 10m) and one SHORT voter (15m);
the current price (110) sits far above the combined demand zone (89). -/
def cEx5 : CandlesByTF := ⟨[], [], dfUp, dfUp, dfDown⟩

/-- A flat (constant) frame of `n` bars at price `q`. -/
def flatDF (n : ℕ) (q : ℚ) : DF := List.replicate n ⟨q, q, q, q⟩

/-- The strictly increasing series `1, 2, ..., 16`: sixteen values, so the
14-period rolling windows are full at the last index and the rolling loss
average there is exactly zero. -/
def incSeries : List ℚ := (List.range 16).map fun n => (n : ℚ) + 1

/-- Keys (directions) of a tally, in order. -/
def keysOf (t : List (Dir × List String)) : List Dir := t.map Prod.fst

/-- Length of an optional label list (`0` for a missing tally entry). -/
def optLen : Option (List String) → ℕ
  | none => 0
  | some l => l.length

/-- Number of labelled votes for direction `d`. -/
def countD (vs : List (String × Option Dir)) (d : Dir) : ℕ :=
  (vs.map Prod.snd).count (some d)

/-! ### Helper lemmas about list extremes -/

theorem maxList_isSome {xs : List ℚ} (h : xs ≠ []) : ∃ m, maxList xs = some m := by
  cases xs with
  | nil => exact absurd rfl h
  | cons x t =>
    cases hm : maxList t with
    | none => exact ⟨x, by simp [maxList, hm]⟩
    | some m => exact ⟨max x m, by simp [maxList, hm]⟩

theorem minList_isSome {xs : List ℚ} (h : xs ≠ []) : ∃ m, minList xs = some m := by
  cases xs with
  | nil => exact absurd rfl h
  | cons x t =>
    cases hm : minList t with
    | none => exact ⟨x, by simp [minList, hm]⟩
    | some m => exact ⟨min x m, by simp [minList, hm]⟩

theorem maxList_spec : ∀ {xs : List ℚ} {m : ℚ}, maxList xs = some m →
    m ∈ xs ∧ ∀ x ∈ xs, x ≤ m := by
  intro xs
  induction xs with
  | nil => intro m h; simp [maxList] at h
  | cons x t ih =>
    intro m h
    cases hm : maxList t with
    | none =>
      have ht : t = [] := by
        cases t with
        | nil => rfl
        | cons y s =>
          exfalso
          obtain ⟨w, hw⟩ := @maxList_isSome (y :: s) (by simp)
          rw [hw] at hm; exact Option.noConfusion hm
      subst ht
      simp [maxList] at h
      simp [h]
    | some m0 =>
      rw [maxList, hm] at h
      have hm2 : max x m0 = m := by simpa using h
      obtain ⟨hmem, hbound⟩ := ih hm
      subst hm2
      refine ⟨?_, ?_⟩
      · rcases le_total x m0 with hx | hx
        · rw [max_eq_right hx]; exact List.mem_cons_of_mem x hmem
        · rw [max_eq_left hx]; exact List.mem_cons_self x t
      · intro y hy
        rcases List.mem_cons.mp hy with hy | hy
        · rw [hy]; exact le_max_left x m0
        · exact le_trans (hbound y hy) (le_max_right x m0)

theorem minList_spec : ∀ {xs : List ℚ} {m : ℚ}, minList xs = some m →
    m ∈ xs ∧ ∀ x ∈ xs, m ≤ x := by
  intro xs
  induction xs with
  | nil => intro m h; simp [minList] at h
  | cons x t ih =>
    intro m h
    cases hm : minList t with
    | none =>
      have ht : t = [] := by
        cases t with
        | nil => rfl
        | cons y s =>
          exfalso
          obtain ⟨w, hw⟩ := @minList_isSome (y :: s) (by simp)
          rw [hw] at hm; exact Option.noConfusion hm
      subst ht
      simp [minList] at h
      simp [h]
    | some m0 =>
      rw [minList, hm] at h
      have hm2 : min x m0 = m := by simpa using h
      obtain ⟨hmem, hbound⟩ := ih hm
      subst hm2
      refine ⟨?_, ?_⟩
      · rcases le_total x m0 with hx | hx
        · rw [min_eq_left hx]; exact List.mem_cons_self x t
        · rw [min_eq_right hx]; exact List.mem_cons_of_mem x hmem
      · intro y hy
        rcases List.mem_cons.mp hy with hy | hy
        · rw [hy]; exact min_le_left x m0
        · exact le_trans (min_le_right x m0) (hbound y hy)

/-! ### Zone extraction: claims C6 and C10 -/

/-- C6: for a nonempty frame shorter than the lookback, zone extraction
returns the maximum over all available highs and the minimum over all
available lows instead of failing; with at least `lookback` bars it
returns the extremes over the last `lookback` bars. -/
theorem supply_demand_zones_lookback_fallback (df : DF) (L : ℕ) (hne : df ≠ []) :
    (df.length < L →
      ∃ h l, supply_demand_zones_from_df df L = (some h, some l) ∧
        h ∈ df.map Bar.high ∧ (∀ x ∈ df.map Bar.high, x ≤ h) ∧
        l ∈ df.map Bar.low ∧ (∀ x ∈ df.map Bar.low, l ≤ x)) ∧
    (0 < L → L ≤ df.length →
      ∃ h l, supply_demand_zones_from_df df L = (some h, some l) ∧
        h ∈ (df.map Bar.high).drop (df.length - L) ∧
        (∀ x ∈ (df.map Bar.high).drop (df.length - L), x ≤ h) ∧
        l ∈ (df.map Bar.low).drop (df.length - L) ∧
        (∀ x ∈ (df.map Bar.low).drop (df.length - L), l ≤ x)) := by
  have hmne : df.map Bar.high ≠ [] := by
    intro hc; exact hne (List.map_eq_nil_iff.mp hc)
  have hlne : df.map Bar.low ≠ [] := by
    intro hc; exact hne (List.map_eq_nil_iff.mp hc)
  constructor
  · intro hlt
    obtain ⟨h, hh⟩ := maxList_isSome hmne
    obtain ⟨l, hl⟩ := minList_isSome hlne
    obtain ⟨hmem, hbd⟩ := maxList_spec hh
    obtain ⟨lmem, lbd⟩ := minList_spec hl
    exact ⟨h, l, by simp [supply_demand_zones_from_df, hne, hlt, hh, hl],
      hmem, hbd, lmem, lbd⟩
  · intro hL hle
    have hnlt : ¬ df.length < L := not_lt.mpr hle
    have hdh : ((df.map Bar.high).drop (df.length - L)) ≠ [] := by
      intro hc
      have := congrArg List.length hc
      simp [List.length_drop] at this
      omega
    have hdl : ((df.map Bar.low).drop (df.length - L)) ≠ [] := by
      intro hc
      have := congrArg List.length hc
      simp [List.length_drop] at this
      omega
    obtain ⟨h, hh⟩ := maxList_isSome hdh
    obtain ⟨l, hl⟩ := minList_isSome hdl
    obtain ⟨hmem, hbd⟩ := maxList_spec hh
    obtain ⟨lmem, lbd⟩ := minList_spec hl
    exact ⟨h, l, by simp [supply_demand_zones_from_df, hne, hnlt, hh, hl],
      hmem, hbd, lmem, lbd⟩

/-- Witness for the zone fallback claim at a concrete two-bar frame with
lookback 5 (fewer bars than the window). -/
theorem supply_demand_zones_lookback_fallback_witness :
    ∃ h l, supply_demand_zones_from_df [⟨1, 3, 0, 2⟩, ⟨1, 4, 1, 2⟩] 5 = (some h, some l) ∧
      h ∈ ([⟨1, 3, 0, 2⟩, ⟨1, 4, 1, 2⟩] : DF).map Bar.high ∧
      (∀ x ∈ ([⟨1, 3, 0, 2⟩, ⟨1, 4, 1, 2⟩] : DF).map Bar.high, x ≤ h) ∧
      l ∈ ([⟨1, 3, 0, 2⟩, ⟨1, 4, 1, 2⟩] : DF).map Bar.low ∧
      (∀ x ∈ ([⟨1, 3, 0, 2⟩, ⟨1, 4, 1, 2⟩] : DF).map Bar.low, l ≤ x) :=
  (supply_demand_zones_lookback_fallback [⟨1, 3, 0, 2⟩, ⟨1, 4, 1, 2⟩] 5
    (by decide)).1 (by decide)

/-- C10: zone extraction is total; the empty frame maps to `(None, None)`
and every nonempty frame maps to a pair of defined values, so the empty
frame is the only input producing a `None` component. -/
theorem supply_demand_zones_total (df : DF) (L : ℕ) (hL : 0 < L) :
    (supply_demand_zones_from_df df L = (none, none) ↔ df = []) ∧
    (df ≠ [] → ∃ h l, supply_demand_zones_from_df df L = (some h, some l)) := by
  have hsome : df ≠ [] → ∃ h l, supply_demand_zones_from_df df L = (some h, some l) := by
    intro hne
    have hmne : df.map Bar.high ≠ [] := by
      intro hc; exact hne (List.map_eq_nil_iff.mp hc)
    have hlne : df.map Bar.low ≠ [] := by
      intro hc; exact hne (List.map_eq_nil_iff.mp hc)
    by_cases hlt : df.length < L
    · obtain ⟨h, hh⟩ := maxList_isSome hmne
      obtain ⟨l, hl⟩ := minList_isSome hlne
      exact ⟨h, l, by simp [supply_demand_zones_from_df, hne, hlt, hh, hl]⟩
    · have hle : L ≤ df.length := not_lt.mp hlt
      have hdh : ((df.map Bar.high).drop (df.length - L)) ≠ [] := by
        intro hc
        have := congrArg List.length hc
        simp [List.length_drop] at this
        omega
      have hdl : ((df.map Bar.low).drop (df.length - L)) ≠ [] := by
        intro hc
        have := congrArg List.length hc
        simp [List.length_drop] at this
        omega
      obtain ⟨h, hh⟩ := maxList_isSome hdh
      obtain ⟨l, hl⟩ := minList_isSome hdl
      exact ⟨h, l, by simp [supply_demand_zones_from_df, hne, hlt, hh, hl]⟩
  refine ⟨⟨?_, ?_⟩, hsome⟩
  · intro heq
    by_contra hne
    obtain ⟨h, l, hs⟩ := hsome hne
    rw [hs] at heq
    simp at heq
  · intro heq
    subst heq
    rfl

/-- Witness for zone totality: the empty frame and a one-bar frame at the
configured 5m lookback of 40. -/
theorem supply_demand_zones_total_witness :
    supply_demand_zones_from_df [] 40 = (none, none) ∧
    ∃ h l, supply_demand_zones_from_df [⟨1, 2, 1, 1⟩] 40 = (some h, some l) :=
  ⟨(supply_demand_zones_total [] 40 (by decide)).1.mpr rfl,
   (supply_demand_zones_total [⟨1, 2, 1, 1⟩] 40 (by decide)).2 (by decide)⟩

/-! ### RSI zero-loss handling: claim C2 -/

/-- C2 (code bug): on the strictly increasing series `1..16` the rolling
loss average at the last index is exactly zero; the explicit handling in
`rsi` (`replace(0, nan)` then `fillna(0)`) sets RS to 0 there, so the final
RSI value is a defined number but equals 0, not the claimed saturation
value 100. -/
theorem rsi_zero_loss_yields_zero :
    (rsi incSeries 14).getLast? = some 0 ∧ (rsi incSeries 14).getLast? ≠ some 100 := by
  decide

/-! ### Empty input: claim C8 -/

/-- C8: when every timeframe fetch failed (all frames empty) each
per-timeframe classification abstains and the evaluator returns the
no-signal value normally, not an error. -/
theorem multi_tf_all_empty_no_signal :
    single_tf_signal [] = none ∧
    multi_tf_confirmation ⟨[], [], [], [], []⟩ = Except.ok none :=
  ⟨rfl, rfl⟩

/-! ### MarkdownV2 escaping: claim C9 -/

/-- C9: `escape_md2` prefixes every occurrence of a MarkdownV2 special
character with one backslash and copies every other character unchanged,
and `send_telegram` applies this escaping to the posted message body. -/
theorem escape_md2_escapes_specials :
    (∀ s : List Char, escape_md2 s =
      (s.map fun ch => if ch ∈ md2_special then ['\\', ch] else [ch]).flatten) ∧
    (∀ tok chat msg p, send_telegram (some tok) (some chat) msg = some p →
      p.text = escape_md2 msg ∧ p.parse_mode = "MarkdownV2") := by
  constructor
  · intro s
    induction s with
    | nil => rfl
    | cons ch rest ih =>
      by_cases hc : ch ∈ md2_special
      · simp [escape_md2, hc, ih]
      · simp [escape_md2, hc, ih]
  · intro tok chat msg p hp
    have hpe : p = ⟨chat, escape_md2 msg, "MarkdownV2"⟩ := by
      simpa [send_telegram] using hp.symm
    subst hpe
    exact ⟨rfl, rfl⟩

/-- Witness for the escaping claim: a concrete send of the message `"."`
carries the escaped body. -/
theorem escape_md2_escapes_specials_witness :
    (⟨"c", ['\\', '.'], "MarkdownV2"⟩ : TelegramPayload).text = escape_md2 ['.'] :=
  (escape_md2_escapes_specials.2 "t" "c" ['.']
    ⟨"c", ['\\', '.'], "MarkdownV2"⟩ (by decide)).1

/-! ### Alert cooldown gate: claims C3 and C4 -/

/-- C3 counterexample: with a LONG alert recorded at time 0, a confirmed
signal at exactly minute 30 is emitted although the elapsed time does not
strictly exceed the 30-minute cooldown (the source compares with `>=`). -/
theorem alert_cooldown_boundary_cex :
    (alert_step [(("X", Dir.long), 0)] "X" Dir.long 30 true).1 = true ∧
    ¬((30 : ℚ) - 0 > ALERT_COOLDOWN_MINUTES) := by
  decide

/-- C3 (amended): an alert is emitted only when the send succeeds and the
elapsed time since the last recorded alert for the pair is at least the
30-minute cooldown; concretely, after a successful LONG alert at time `T`
the same signal is suppressed at `T + 5` minutes and emitted at `T + 31`
minutes. -/
theorem alert_cooldown_amended (st : AlertState) (symbol : String) (d : Dir)
    (now : ℚ) (send_ok : Bool) :
    ((alert_step st symbol d now send_ok).1 = true →
      send_ok = true ∧
      ∀ last, lookupAlert st (symbol, d) = some last →
        ALERT_COOLDOWN_MINUTES ≤ now - last) ∧
    (∀ T : ℚ,
      (alert_step (set_alert_time st "X" Dir.long T) "X" Dir.long (T + 5) true).1 = false ∧
      (alert_step (set_alert_time st "X" Dir.long T) "X" Dir.long (T + 31) true).1 = true) := by
  constructor
  · intro hemit
    have hca : can_alert st symbol d now = true := by
      by_contra hca
      simp [alert_step, hca] at hemit
    have hok : send_ok = true := by
      cases hso : send_ok
      · rw [hso] at hemit
        simp [alert_step] at hemit
      · rfl
    refine ⟨hok, ?_⟩
    intro last hlast
    rw [can_alert, hlast] at hca
    exact of_decide_eq_true hca
  · intro T
    have hlook : lookupAlert (set_alert_time st "X" Dir.long T) ("X", Dir.long) = some T := by
      simp [set_alert_time, lookupAlert]
    constructor
    · have hca : can_alert (set_alert_time st "X" Dir.long T) "X" Dir.long (T + 5) = false := by
        rw [can_alert, hlook]
        apply decide_eq_false
        intro hcon
        have h5 : T + 5 - T = 5 := by ring
        rw [h5, ALERT_COOLDOWN_MINUTES] at hcon
        norm_num at hcon
      simp [alert_step, hca]
    · have hca : can_alert (set_alert_time st "X" Dir.long T) "X" Dir.long (T + 31) = true := by
        rw [can_alert, hlook]
        apply decide_eq_true
        have h31 : T + 31 - T = 31 := by ring
        rw [h31, ALERT_COOLDOWN_MINUTES]
        norm_num
      simp [alert_step, hca]

/-- Witness for the amended cooldown claim: the concrete suppressed and
emitted calls after a successful alert at time 0. -/
theorem alert_cooldown_amended_witness :
    (alert_step (set_alert_time [] "X" Dir.long 0) "X" Dir.long (0 + 5) true).1 = false ∧
    (alert_step (set_alert_time [] "X" Dir.long 0) "X" Dir.long (0 + 31) true).1 = true :=
  (alert_cooldown_amended [] "X" Dir.long 0 true).2 0

/-- C4 (code bug in `sniper_bot.py`): the deduplication set is extended
even when the outbound send fails, so the signal can never be retried; the
`deriv_bot` gate, by contrast, leaves its state unchanged on a failed
send at the same concrete input. -/
theorem sniper_dedup_updates_on_failed_send :
    sniper_signal_step [] "GC=F_5min_LONG" false = ["GC=F_5min_LONG"] ∧
    sniper_signal_step [] "GC=F_5min_LONG" false ≠ [] ∧
    (alert_step [] "R_50" Dir.long 0 false).2 = [] := by
  decide

/-! ### Votes, frames and the current price -/

theorem single_tf_signal_length {df : DF} {d : Dir}
    (h : single_tf_signal df = some d) : 20 ≤ df.length := by
  by_contra hle
  have hlt : df.length < 20 := not_le.mp hle
  simp [single_tf_signal, hlt] at h

theorem single_tf_signal_ne_nil {df : DF} {d : Dir}
    (h : single_tf_signal df = some d) : df ≠ [] := by
  intro hc
  subst hc
  simp [single_tf_signal] at h

theorem lastClose_eq_none {df : DF} (h : lastClose df = none) : df = [] :=
  List.map_eq_nil_iff.mp (List.getLast?_eq_none_iff.mp h)

theorem lastClose_isSome {df : DF} (h : df ≠ []) : ∃ p, lastClose df = some p := by
  cases hg : lastClose df with
  | none => exact absurd (lastClose_eq_none hg) h
  | some p => exact ⟨p, rfl⟩

theorem pickPrice_isSome {c : CandlesByTF}
    (h : c.tf1m ≠ [] ∨ c.tf3m ≠ [] ∨ c.tf5m ≠ [] ∨ c.tf10m ≠ [] ∨ c.tf15m ≠ []) :
    ∃ p, pickPrice c = some p := by
  cases h1 : lastClose c.tf1m with
  | some p => exact ⟨p, by simp [pickPrice, h1]⟩
  | none =>
    cases h2 : lastClose c.tf3m with
    | some p => exact ⟨p, by simp [pickPrice, h1, h2]⟩
    | none =>
      cases h3 : lastClose c.tf5m with
      | some p => exact ⟨p, by simp [pickPrice, h1, h2, h3]⟩
      | none =>
        cases h4 : lastClose c.tf10m with
        | some p => exact ⟨p, by simp [pickPrice, h1, h2, h3, h4]⟩
        | none =>
          have e1 := lastClose_eq_none h1
          have e2 := lastClose_eq_none h2
          have e3 := lastClose_eq_none h3
          have e4 := lastClose_eq_none h4
          have h15 : c.tf15m ≠ [] := by
            rcases h with h | h | h | h | h
            exacts [absurd e1 h, absurd e2 h, absurd e3 h, absurd e4 h, h]
          obtain ⟨p, hp⟩ := lastClose_isSome h15
          exact ⟨p, by simp [pickPrice, h1, h2, h3, h4, hp]⟩

theorem pickPrice_some_of_vote {c : CandlesByTF} {d : Dir}
    (h : 1 ≤ countVotes c d) : ∃ p, pickPrice c = some p := by
  rw [countVotes] at h
  have hmem : some d ∈ votesOf c := List.count_pos_iff.mp h
  simp only [votesOf, tfFrames, List.map_cons, List.map_nil, List.mem_cons,
    List.not_mem_nil, or_false] at hmem
  apply pickPrice_isSome
  rcases hmem with h1 | h1 | h1 | h1 | h1
  · exact Or.inl (single_tf_signal_ne_nil h1.symm)
  · exact Or.inr (Or.inl (single_tf_signal_ne_nil h1.symm))
  · exact Or.inr (Or.inr (Or.inl (single_tf_signal_ne_nil h1.symm)))
  · exact Or.inr (Or.inr (Or.inr (Or.inl (single_tf_signal_ne_nil h1.symm))))
  · exact Or.inr (Or.inr (Or.inr (Or.inr (single_tf_signal_ne_nil h1.symm))))

/-! ### The tally of votes -/

theorem optLen_addVote (acc : List (Dir × List String)) (d0 : Dir) (s : String)
    (d : Dir) :
    optLen (tallyLookup (addVote acc d0 s) d) =
      optLen (tallyLookup acc d) + (if d0 = d then 1 else 0) := by
  induction acc with
  | nil =>
    by_cases hd : d0 = d <;> simp [addVote, tallyLookup, hd, optLen]
  | cons p rest ih =>
    obtain ⟨d1, l⟩ := p
    by_cases h1 : d1 = d0
    · subst h1
      by_cases h2 : d1 = d
      · simp [addVote, tallyLookup, h2, optLen]
      · simp [addVote, tallyLookup, h2]
    · by_cases h2 : d1 = d
      · subst h2
        have h0 : ¬ (d0 = d1) := fun hc => h1 hc.symm
        simp [addVote, h1, tallyLookup, optLen, h0]
      · simp [addVote, h1, tallyLookup, h2, ih]

theorem optLen_tallyVotes (vs : List (String × Option Dir)) (d : Dir) :
    optLen (tallyLookup (tallyVotes vs) d) = countD vs d := by
  have main : ∀ (ws : List (String × Option Dir)) (acc : List (Dir × List String)),
      optLen (tallyLookup (ws.foldl (fun acc p =>
        match p.2 with
        | some d0 => addVote acc d0 p.1
        | none => acc) acc) d) = optLen (tallyLookup acc d) + countD ws d := by
    intro ws
    induction ws with
    | nil => intro acc; simp [countD]
    | cons p rest ih =>
      intro acc
      obtain ⟨s, v⟩ := p
      cases v with
      | none =>
        simp only [List.foldl_cons]
        rw [ih acc]
        simp [countD, List.count_cons]
      | some d0 =>
        simp only [List.foldl_cons]
        rw [ih (addVote acc d0 s), optLen_addVote]
        by_cases hd : d0 = d <;> simp [countD, List.count_cons, hd]
        omega
  have := main vs []
  simpa [tallyVotes, tallyLookup, optLen] using this

theorem keysOf_addVote (acc : List (Dir × List String)) (d : Dir) (s : String) :
    keysOf (addVote acc d s) =
      if d ∈ keysOf acc then keysOf acc else keysOf acc ++ [d] := by
  induction acc with
  | nil => simp [addVote, keysOf]
  | cons p rest ih =>
    obtain ⟨d1, l⟩ := p
    by_cases h1 : d1 = d
    · subst h1
      simp [addVote, keysOf]
    · have h1' : ¬ d = d1 := fun hc => h1 hc.symm
      simp only [keysOf, List.map_cons] at ih ⊢
      simp only [addVote, if_neg h1, List.map_cons]
      rw [ih]
      by_cases h2 : d ∈ rest.map Prod.fst
      · simp [List.mem_cons, h1', h2]
      · simp [List.mem_cons, h1', h2]

theorem keysOf_nodup_tallyVotes (vs : List (String × Option Dir)) :
    (keysOf (tallyVotes vs)).Nodup := by
  have main : ∀ (ws : List (String × Option Dir)) (acc : List (Dir × List String)),
      (keysOf acc).Nodup → (keysOf (ws.foldl (fun acc p =>
        match p.2 with
        | some d0 => addVote acc d0 p.1
        | none => acc) acc)).Nodup := by
    intro ws
    induction ws with
    | nil => intro acc h; simpa using h
    | cons p rest ih =>
      intro acc h
      obtain ⟨s, v⟩ := p
      cases v with
      | none => simpa using ih acc h
      | some d0 =>
        simp only [List.foldl_cons]
        apply ih
        rw [keysOf_addVote]
        by_cases hm : d0 ∈ keysOf acc
        · simpa [hm] using h
        · rw [if_neg hm]
          rw [List.nodup_append]
          exact ⟨h, by simp, by simpa [List.disjoint_singleton] using hm⟩
  have := main vs [] (by simp [keysOf])
  simpa [tallyVotes] using this

theorem tallyLookup_mem : ∀ {t : List (Dir × List String)} {d : Dir} {l : List String},
    tallyLookup t d = some l → (d, l) ∈ t := by
  intro t
  induction t with
  | nil => intro d l h; simp [tallyLookup] at h
  | cons p rest ih =>
    intro d l h
    obtain ⟨d1, l1⟩ := p
    by_cases h1 : d1 = d
    · subst h1
      simp [tallyLookup] at h
      subst h
      exact List.mem_cons_self _ _
    · simp [tallyLookup, h1] at h
      exact List.mem_cons_of_mem _ (ih h)

theorem mem_tallyLookup : ∀ {t : List (Dir × List String)},
    (keysOf t).Nodup → ∀ {d : Dir} {l : List String},
    (d, l) ∈ t → tallyLookup t d = some l := by
  intro t
  induction t with
  | nil => intro _ d l h; simp at h
  | cons p rest ih =>
    intro hnd d l h
    obtain ⟨d1, l1⟩ := p
    rcases List.mem_cons.mp h with heq | hmem
    · have hd : d1 = d := (Prod.ext_iff.mp heq).1.symm
      have hl : l1 = l := (Prod.ext_iff.mp heq).2.symm
      simp [tallyLookup, hd, hl]
    · have hdmem : d ∈ keysOf rest := List.mem_map.mpr ⟨(d, l), hmem, rfl⟩
      have hnd1 : (d1 :: keysOf rest).Nodup := hnd
      obtain ⟨hne, hnd2⟩ := List.nodup_cons.mp hnd1
      have h1 : ¬ d1 = d := fun hc => hne (hc ▸ hdmem)
      simp only [tallyLookup, if_neg h1]
      exact ih hnd2 hmem

theorem countD_eq_countVotes (c : CandlesByTF) (d : Dir) :
    countD ((tfFrames c).map fun p => (p.1, single_tf_signal p.2)) d =
      countVotes c d := by
  simp [countD, countVotes, votesOf, List.map_map]
  rfl

theorem tfSignals_eq (c : CandlesByTF) :
    tfSignals c = tallyVotes ((tfFrames c).map fun p => (p.1, single_tf_signal p.2)) :=
  rfl

theorem mem_tfSignals_length {c : CandlesByTF} {d : Dir} {l : List String}
    (h : (d, l) ∈ tfSignals c) : l.length = countVotes c d := by
  rw [tfSignals_eq] at h
  have hlk := mem_tallyLookup (keysOf_nodup_tallyVotes
    ((tfFrames c).map fun p => (p.1, single_tf_signal p.2))) h
  have hcnt := optLen_tallyVotes ((tfFrames c).map fun p => (p.1, single_tf_signal p.2)) d
  rw [hlk, countD_eq_countVotes] at hcnt
  simpa [optLen] using hcnt

theorem tfSignals_lookup_of_count {c : CandlesByTF} {d : Dir} {n : ℕ}
    (h : countVotes c d = n) (hn : 1 ≤ n) :
    ∃ l, tallyLookup (tfSignals c) d = some l ∧ l.length = n := by
  have hcnt := optLen_tallyVotes ((tfFrames c).map fun p => (p.1, single_tf_signal p.2)) d
  rw [← tfSignals_eq, countD_eq_countVotes, h] at hcnt
  cases hl : tallyLookup (tfSignals c) d with
  | none => rw [hl] at hcnt; simp [optLen] at hcnt; omega
  | some l =>
    rw [hl] at hcnt
    exact ⟨l, rfl, by simpa [optLen] using hcnt⟩

/-! ### The confirmation loop -/

theorem confirmLoop_ok {c : CandlesByTF} (hp : ∃ p, pickPrice c = some p) :
    ∀ t, ∃ r, confirmLoop c t = Except.ok r := by
  obtain ⟨p, hp⟩ := hp
  intro t
  induction t with
  | nil => exact ⟨none, rfl⟩
  | cons e rest ih =>
    obtain ⟨d, tfs⟩ := e
    by_cases h2 : 2 ≤ tfs.length
    · cases hz : zoneDecision (combined c).1 (combined c).2 d tfs p with
      | some s => exact ⟨some s, by simp [confirmLoop, h2, confirmStep, hp, hz]⟩
      | none =>
        obtain ⟨r, hr⟩ := ih
        exact ⟨r, by simp [confirmLoop, h2, confirmStep, hp, hz, hr]⟩
    · obtain ⟨r, hr⟩ := ih
      exact ⟨r, by simp [confirmLoop, h2, hr]⟩

theorem confirmLoop_some_inv {c : CandlesByTF} :
    ∀ {t : List (Dir × List String)} {sig : Signal},
    confirmLoop c t = Except.ok (some sig) →
    ∃ d l, (d, l) ∈ t ∧ 2 ≤ l.length ∧ confirmStep c d l = Except.ok (some sig) := by
  intro t
  induction t with
  | nil => intro sig h; simp [confirmLoop] at h
  | cons e rest ih =>
    intro sig h
    obtain ⟨d, tfs⟩ := e
    by_cases h2 : 2 ≤ tfs.length
    · rw [confirmLoop, if_pos h2] at h
      cases hcs : confirmStep c d tfs with
      | error e0 => rw [hcs] at h; simp at h
      | ok o =>
        cases o with
        | some s =>
          rw [hcs] at h
          simp only [Except.ok.injEq, Option.some.injEq] at h
          subst h
          exact ⟨d, tfs, List.mem_cons_self _ _, h2, hcs⟩
        | none =>
          rw [hcs] at h
          obtain ⟨d1, l1, hm, hl, hstep⟩ := ih h
          exact ⟨d1, l1, List.mem_cons_of_mem _ hm, hl, hstep⟩
    · rw [confirmLoop, if_neg h2] at h
      obtain ⟨d1, l1, hm, hl, hstep⟩ := ih h
      exact ⟨d1, l1, List.mem_cons_of_mem _ hm, hl, hstep⟩

theorem confirmLoop_none_inv {c : CandlesByTF} :
    ∀ {t : List (Dir × List String)},
    confirmLoop c t = Except.ok none →
    ∀ {d : Dir} {l : List String}, (d, l) ∈ t → 2 ≤ l.length →
    confirmStep c d l = Except.ok none := by
  intro t
  induction t with
  | nil => intro _ d l hm; simp at hm
  | cons e rest ih =>
    intro h d l hm h2l
    obtain ⟨d0, tfs⟩ := e
    rcases List.mem_cons.mp hm with heq | hmem
    · have hd : d = d0 := (Prod.ext_iff.mp heq).1
      have hl : l = tfs := (Prod.ext_iff.mp heq).2
      subst hd; subst hl
      rw [confirmLoop, if_pos h2l] at h
      cases hcs : confirmStep c d l with
      | error e0 => rw [hcs] at h; simp at h
      | ok o =>
        cases o with
        | some s => rw [hcs] at h; simp at h
        | none => rfl
    · by_cases h2 : 2 ≤ tfs.length
      · rw [confirmLoop, if_pos h2] at h
        cases hcs : confirmStep c d0 tfs with
        | error e0 => rw [hcs] at h; simp at h
        | ok o =>
          cases o with
          | some s => rw [hcs] at h; simp at h
          | none => rw [hcs] at h; exact ih h hmem h2l
      · rw [confirmLoop, if_neg h2] at h
        exact ih h hmem h2l

theorem confirmLoop_skip {c : CandlesByTF} :
    ∀ {t : List (Dir × List String)},
    (∀ d l, (d, l) ∈ t → l.length < 2) → confirmLoop c t = Except.ok none := by
  intro t
  induction t with
  | nil => intro _; rfl
  | cons e rest ih =>
    intro hall
    obtain ⟨d, tfs⟩ := e
    have hlt : tfs.length < 2 := hall d tfs (List.mem_cons_self _ _)
    rw [confirmLoop, if_neg (by omega)]
    exact ih fun d1 l1 hm => hall d1 l1 (List.mem_cons_of_mem _ hm)

theorem confirmStep_some_inv {c : CandlesByTF} {d : Dir} {l : List String}
    {sig : Signal} (h : confirmStep c d l = Except.ok (some sig)) :
    sig.direction = d ∧ sig.tfs = l := by
  rw [confirmStep] at h
  cases hp : pickPrice c with
  | none => rw [hp] at h; simp at h
  | some p =>
    rw [hp] at h
    simp only [Except.ok.injEq] at h
    cases d with
    | long =>
      cases hdm : (combined c).1 with
      | none =>
        rw [hdm] at h
        simp only [zoneDecision, Option.some.injEq] at h
        subst h
        exact ⟨rfl, rfl⟩
      | some dz =>
        rw [hdm] at h
        simp only [zoneDecision] at h
        by_cases hple : p ≤ dz * (1005 / 1000)
        · rw [if_pos hple] at h
          simp only [Option.some.injEq] at h
          subst h
          exact ⟨rfl, rfl⟩
        · rw [if_neg hple] at h
          simp at h
    | short =>
      cases hsp : (combined c).2 with
      | none =>
        rw [hsp] at h
        simp only [zoneDecision, Option.some.injEq] at h
        subst h
        exact ⟨rfl, rfl⟩
      | some sz =>
        rw [hsp] at h
        simp only [zoneDecision] at h
        by_cases hple : sz * (995 / 1000) ≤ p
        · rw [if_pos hple] at h
          simp only [Option.some.injEq] at h
          subst h
          exact ⟨rfl, rfl⟩
        · rw [if_neg hple] at h
          simp at h

theorem confirmStep_long_none_inv {c : CandlesByTF} {l : List String}
    (h : confirmStep c Dir.long l = Except.ok none) :
    ∃ dz p, (combined c).1 = some dz ∧ pickPrice c = some p ∧
      dz * (1005 / 1000) < p := by
  rw [confirmStep] at h
  cases hp : pickPrice c with
  | none => rw [hp] at h; simp at h
  | some p =>
    rw [hp] at h
    simp only [Except.ok.injEq] at h
    cases hdm : (combined c).1 with
    | none => rw [hdm] at h; simp [zoneDecision] at h
    | some dz =>
      rw [hdm] at h
      simp only [zoneDecision] at h
      by_cases hple : p ≤ dz * (1005 / 1000)
      · rw [if_pos hple] at h; simp at h
      · exact ⟨dz, p, rfl, rfl, not_le.mp hple⟩

theorem confirmLoop_none_of_steps {c : CandlesByTF} :
    ∀ {t : List (Dir × List String)},
    (∀ d l, (d, l) ∈ t → 2 ≤ l.length → confirmStep c d l = Except.ok none) →
    confirmLoop c t = Except.ok none := by
  intro t
  induction t with
  | nil => intro _; rfl
  | cons e rest ih =>
    intro hall
    obtain ⟨d, tfs⟩ := e
    by_cases h2 : 2 ≤ tfs.length
    · rw [confirmLoop, if_pos h2, hall d tfs (List.mem_cons_self _ _) h2]
      exact ih fun d1 l1 hm => hall d1 l1 (List.mem_cons_of_mem _ hm)
    · rw [confirmLoop, if_neg h2]
      exact ih fun d1 l1 hm => hall d1 l1 (List.mem_cons_of_mem _ hm)

theorem confirmStep_long_none {c : CandlesByTF} {l : List String} {dz p : ℚ}
    (hdm : (combined c).1 = some dz) (hp : pickPrice c = some p)
    (hgt : dz * (1005 / 1000) < p) :
    confirmStep c Dir.long l = Except.ok none := by
  rw [confirmStep, hp]
  show Except.ok (zoneDecision (combined c).1 (combined c).2 Dir.long l p) =
    Except.ok none
  rw [hdm]
  simp only [zoneDecision]
  rw [if_neg (not_le.mpr hgt)]

/-! ### Multi-timeframe confirmation: claims C1 and C5 -/

/-- C1: a confirmed signal requires at least two timeframes voting for its
direction, and with at most one vote cast in total the evaluator returns
the no-signal value. -/
theorem multi_tf_requires_two_votes (c : CandlesByTF) :
    (∀ sig, multi_tf_confirmation c = Except.ok (some sig) →
      2 ≤ countVotes c sig.direction) ∧
    (countVotes c Dir.long + countVotes c Dir.short ≤ 1 →
      multi_tf_confirmation c = Except.ok none) := by
  constructor
  · intro sig h
    rw [multi_tf_confirmation] at h
    obtain ⟨d, l, hmem, h2, hstep⟩ := confirmLoop_some_inv h
    obtain ⟨hdir, _⟩ := confirmStep_some_inv hstep
    have hlen := mem_tfSignals_length hmem
    rw [hdir, ← hlen]
    exact h2
  · intro hle
    rw [multi_tf_confirmation]
    apply confirmLoop_skip
    intro d l hmem
    have hlen := mem_tfSignals_length hmem
    cases d <;> omega

/-- Witness for the two-vote requirement: a candle set with a single
one-bar frame casts no votes, and the evaluator returns no signal. -/
theorem multi_tf_requires_two_votes_witness :
    multi_tf_confirmation ⟨[⟨1, 1, 1, 1⟩], [], [], [], []⟩ = Except.ok none :=
  (multi_tf_requires_two_votes ⟨[⟨1, 1, 1, 1⟩], [], [], [], []⟩).2 (by decide)

/-- C5 counterexample: in `cEx5` exactly two timeframes (5m, 10m) vote LONG
and one (15m) votes SHORT, yet the evaluator returns no signal, because the
current price (110) is not within 0.5 percent above the combined demand
zone (89). -/
theorem multi_tf_two_long_one_short_cex :
    countVotes cEx5 Dir.long = 2 ∧ countVotes cEx5 Dir.short = 1 ∧
    multi_tf_confirmation cEx5 = Except.ok none := by
  refine ⟨by decide, by decide, ?_⟩
  rfl

/-- C5 (amended): with exactly two LONG votes and one SHORT vote the
evaluator never errors and never returns SHORT; it returns either a LONG
signal or, exactly when a demand zone exists and the current price is
above the 0.5 percent tolerance band, no signal. -/
theorem multi_tf_two_long_one_short (c : CandlesByTF)
    (hl : countVotes c Dir.long = 2) (hs : countVotes c Dir.short = 1) :
    ∃ r, multi_tf_confirmation c = Except.ok r ∧
      (∀ sig, r = some sig → sig.direction = Dir.long) ∧
      (r = none ↔ ∃ dz p, (combined c).1 = some dz ∧ pickPrice c = some p ∧
        dz * (1005 / 1000) < p) := by
  have hp : ∃ p, pickPrice c = some p :=
    @pickPrice_some_of_vote c Dir.long (by omega)
  obtain ⟨r, hr⟩ := confirmLoop_ok hp (tfSignals c)
  have hr2 : multi_tf_confirmation c = Except.ok r := hr
  refine ⟨r, hr2, ?_, ?_, ?_⟩
  · intro sig hsig
    subst hsig
    obtain ⟨d, l, hmem, h2, hstep⟩ := confirmLoop_some_inv hr
    obtain ⟨hdir, _⟩ := confirmStep_some_inv hstep
    have hlen := mem_tfSignals_length hmem
    cases d with
    | long => exact hdir
    | short => omega
  · intro hnone
    subst hnone
    obtain ⟨l, hlk, hlen⟩ := tfSignals_lookup_of_count hl (by omega)
    have hmem := tallyLookup_mem hlk
    have hstep := confirmLoop_none_inv hr hmem (by omega)
    exact confirmStep_long_none_inv hstep
  · rintro ⟨dz, p, hdm, hpp, hgt⟩
    have hloop : confirmLoop c (tfSignals c) = Except.ok none := by
      apply confirmLoop_none_of_steps
      intro d l hmem h2
      have hlen := mem_tfSignals_length hmem
      cases d with
      | long => exact confirmStep_long_none hdm hpp hgt
      | short => omega
    simpa using hr.symm.trans hloop

/-- Witness for the amended two-LONG-one-SHORT claim at the concrete
candle set `cEx5`. -/
theorem multi_tf_two_long_one_short_witness :
    ∃ r, multi_tf_confirmation cEx5 = Except.ok r ∧
      (∀ sig, r = some sig → sig.direction = Dir.long) ∧
      (r = none ↔ ∃ dz p, (combined cEx5).1 = some dz ∧ pickPrice cEx5 = some p ∧
        dz * (1005 / 1000) < p) :=
  multi_tf_two_long_one_short cEx5 (by decide) (by decide)

/-! ### Flat series and volatility: claim C7 -/

theorem zipWith_replicate_pred {α β : Type} (f : α → α → β) (a : α) :
    ∀ n, List.zipWith f (List.replicate (n + 1) a) (List.replicate n a) =
      List.replicate n (f a a) := by
  intro n
  induction n with
  | zero => rfl
  | succ k ih =>
    show List.zipWith f (a :: List.replicate (k + 1) a) (a :: List.replicate k a) =
      List.replicate (k + 1) (f a a)
    rw [List.zipWith_cons_cons, ih]
    rfl

theorem pct_change_replicate (q : ℚ) (n : ℕ) :
    pct_change (List.replicate (n + 1) q) = none :: List.replicate n (some 0) := by
  rw [List.replicate_succ, pct_change]
  rw [List.tail_cons, ← List.replicate_succ]
  rw [zipWith_replicate_pred]
  congr 2
  simp

theorem filterMap_id_replicate_some (m : ℕ) :
    (List.replicate m (some (0 : ℚ))).filterMap id = List.replicate m 0 := by
  induction m with
  | zero => rfl
  | succ k ih => rw [List.replicate_succ, List.filterMap_cons, List.replicate_succ, ← ih]; rfl

theorem sampleVar_replicate_zero {m : ℕ} (hm : 2 ≤ m) :
    sampleVar (List.replicate m (0 : ℚ)) = some 0 := by
  rw [sampleVar, if_neg (by simp; omega)]
  simp

theorem volatility_flat (q : ℚ) {n : ℕ} (hn : 3 ≤ n) :
    volatility_pct_sq (List.replicate n q) = some 0 := by
  obtain ⟨k, rfl⟩ : ∃ k, n = k + 1 := ⟨n - 1, by omega⟩
  rw [volatility_pct_sq, pct_change_replicate, List.filterMap_cons]
  simp only [id]
  rw [filterMap_id_replicate_some, sampleVar_replicate_zero (by omega)]
  simp

theorem single_tf_signal_flat (q : ℚ) (n : ℕ) :
    single_tf_signal (flatDF n q) = none := by
  have hlen : (flatDF n q).length = n := by simp [flatDF]
  by_cases hn : n < 20
  · rw [single_tf_signal, if_pos (by omega)]
  · rw [single_tf_signal, if_neg (by omega)]
    have hcl : (flatDF n q).map Bar.close = List.replicate n q := by
      simp [flatDF, List.map_replicate]
    have hvol : volatility_pct_sq ((flatDF n q).map Bar.close) = some 0 := by
      rw [hcl]; exact volatility_flat q (by omega)
    have hnotlt : ¬ (MIN_VOLATILITY_PCT ^ 2 < (0 : ℚ)) := not_lt.mpr (sq_nonneg _)
    simp [hvol, hnotlt]

/-- C7 counterexample: on the flat two-value series `[5, 5]` the volatility
is a NaN (the sample standard deviation of a single observation with
`ddof = 1` is undefined), not exactly 0 as claimed. -/
theorem volatility_flat_short_cex :
    volatility_pct_sq [(5 : ℚ), 5] = none ∧
    volatility_pct_sq [(5 : ℚ), 5] ≠ some 0 := by
  decide

/-- C7 (amended): for a flat nonzero price series with at least three
values the volatility is exactly 0, and for flat frames of any length no
timeframe votes and the evaluator confirms no signal. -/
theorem flat_series_no_signal (q1 q3 q5 q10 q15 : ℚ) (n1 n3 n5 n10 n15 : ℕ)
    (_h1 : q1 ≠ 0) (_h3 : q3 ≠ 0) (_h5 : q5 ≠ 0) (_h10 : q10 ≠ 0) (_h15 : q15 ≠ 0) :
    (3 ≤ n1 → volatility_pct_sq (List.replicate n1 q1) = some 0) ∧
    multi_tf_confirmation ⟨flatDF n1 q1, flatDF n3 q3, flatDF n5 q5,
      flatDF n10 q10, flatDF n15 q15⟩ = Except.ok none := by
  refine ⟨fun hn => volatility_flat q1 hn, ?_⟩
  rw [multi_tf_confirmation]
  have hv : tfSignals ⟨flatDF n1 q1, flatDF n3 q3, flatDF n5 q5,
      flatDF n10 q10, flatDF n15 q15⟩ = [] := by
    rw [tfSignals_eq]
    simp [tfFrames, tallyVotes, single_tf_signal_flat]
  rw [hv]
  rfl

/-- Witness for the amended flat-series claim at five flat five-bar frames
of price 2. -/
theorem flat_series_no_signal_witness :
    volatility_pct_sq (List.replicate 5 (2 : ℚ)) = some 0 ∧
    multi_tf_confirmation ⟨flatDF 5 2, flatDF 5 2, flatDF 5 2, flatDF 5 2,
      flatDF 5 2⟩ = Except.ok none := by
  have h := flat_series_no_signal 2 2 2 2 2 5 5 5 5 5 (by norm_num) (by norm_num)
    (by norm_num) (by norm_num) (by norm_num)
  exact ⟨h.1 (by norm_num), h.2⟩
